import Mathlib

/-!
Verification development for the mgconsole batched-parallel importer.

The definitions below are a shallow embedding of the importer's core, translated
from the C++ sources:
  * `QueryInfo`, `Query`, `Batch` — `namespace query` in `utils.hpp`
    (`struct QueryInfo`, `struct Query`, `struct Batch`);
  * `Batches`, `Batches.addQuery`, `Batches.finalize`, `Batches.empty`,
    `fetchWindow`, `runImport` — `mode::batch_import` in `batch_import.cpp`
    (`struct Batches`, `AddQuery`, `Finalize`, `Empty`, `FetchBatches`, `Run`);
  * `batchOnFailure` — the failure branch of the worker task in
    `ExecuteBatchesParallel`;
  * the tokenizer (`parseStep`, `parseLineRun`, `getQueryM`) — `console::ParseLine`
    and `query::GetQuery` in `utils.cpp`;
  * the clause recognizer (`ClauseState`, `nextState`) — `query::line::NextState`
    in `query_type.hpp`.

Machine integers (`int64_t`, `uint64_t`) are modelled as `Int`/`Nat`; none of the
modelled arithmetic can overflow 64 bits (backoff stays below 201, counters are
bounded by input length).
-/

/-- Classifier feature flags, from `struct QueryInfo` in `utils.hpp`. -/
structure QueryInfo where
  has_create : Bool := false
  has_match : Bool := false
  has_merge : Bool := false
  has_detach_delete : Bool := false
  has_create_index : Bool := false
  has_drop_index : Bool := false
  has_remove : Bool := false
  has_storage_mode : Bool := false
deriving DecidableEq, Repr

/-- A tokenized statement, from `struct Query` in `utils.hpp`.  The C++ field
`info` is `std::optional<QueryInfo>`; in the grouper it is asserted present
(`MG_ASSERT(query.info, ...)`), so the embedding makes it a plain field. -/
structure Query where
  line_number : Int := 0
  index : Int := 0
  query : List Char := []
  info : QueryInfo := {}
deriving DecidableEq, Repr

/-- A batch of statements, from `struct Batch` in `utils.hpp`:
`capacity`, `index`, `queries`, `is_executed = false`, `backoff = 1`,
`attempts = 0`. -/
structure Batch where
  capacity : Int
  index : Int
  queries : List Query := []
  is_executed : Bool := false
  backoff : Int := 1
  attempts : Int := 0
deriving DecidableEq, Repr

/-- The `Batch` constructor: fresh queries vector, defaults for the rest. -/
def mkBatch (capacity index : Int) : Batch :=
  { capacity := capacity, index := index }

/-- `is_pre_query` from `Batches::AddQuery` in `batch_import.cpp`:
`return info.has_create_index;`. -/
def isPreQuery (info : QueryInfo) : Bool :=
  info.has_create_index

/-- `is_vertex_query` from `Batches::AddQuery`: `has_create && !has_match &&
!has_merge && !has_detach_delete && !has_create_index && !has_drop_index &&
!has_remove`. -/
def isVertexQuery (info : QueryInfo) : Bool :=
  info.has_create && !info.has_match && !info.has_merge && !info.has_detach_delete &&
    !info.has_create_index && !info.has_drop_index && !info.has_remove

/-- `is_edge_query` from `Batches::AddQuery`: `has_match && has_create`. -/
def isEdgeQuery (info : QueryInfo) : Bool :=
  info.has_match && info.has_create

/-- The four buckets of the grouper. -/
inductive Bucket where
  | pre
  | vertex
  | edge
  | post
deriving DecidableEq, Repr

/-- The routing decision of `Batches::AddQuery`, read off its if/else-if chain. -/
def routeQuery (info : QueryInfo) : Bucket :=
  if isPreQuery info then .pre
  else if isVertexQuery info then .vertex
  else if isEdgeQuery info then .edge
  else .post

/-- Grouper state, from `struct Batches` in `batch_import.cpp`. -/
structure Batches where
  batch_size : Nat
  batch_index : Nat
  pre_queries : List Query
  vertices_batch : Batch
  edges_batch : Batch
  vertex_batches : List Batch
  edge_batches : List Batch
  post_queries : List Query
deriving Repr

/-- The `Batches` constructor: `batch_size`, open vertex batch with index 0,
open edge batch with index 1, `batch_index = 1`, empty batch lists. -/
def mkBatches (batch_size : Nat) : Batches :=
  { batch_size := batch_size
    batch_index := 1
    pre_queries := []
    vertices_batch := mkBatch batch_size 0
    edges_batch := mkBatch batch_size 1
    vertex_batches := []
    edge_batches := []
    post_queries := [] }

/-- `Batches::AddQuery`: route by the three predicates; vertex and edge
statements fill the open batch, sealing it into the bucket's list when it is
already full and opening a fresh batch holding the new statement. -/
def Batches.addQuery (bs : Batches) (q : Query) : Batches :=
  if isPreQuery q.info then
    { bs with pre_queries := bs.pre_queries ++ [q] }
  else if isVertexQuery q.info then
    if bs.vertices_batch.queries.length < bs.batch_size then
      { bs with vertices_batch :=
          { bs.vertices_batch with queries := bs.vertices_batch.queries ++ [q] } }
    else
      let bi := bs.batch_index + 1
      { bs with
          batch_index := bi
          vertex_batches := bs.vertex_batches ++ [bs.vertices_batch]
          vertices_batch :=
            { mkBatch bs.batch_size bi with queries := [q] } }
  else if isEdgeQuery q.info then
    if bs.edges_batch.queries.length < bs.batch_size then
      { bs with edges_batch :=
          { bs.edges_batch with queries := bs.edges_batch.queries ++ [q] } }
    else
      let bi := bs.batch_index + 1
      { bs with
          batch_index := bi
          edge_batches := bs.edge_batches ++ [bs.edges_batch]
          edges_batch :=
            { mkBatch bs.batch_size bi with queries := [q] } }
  else
    { bs with post_queries := bs.post_queries ++ [q] }

/-- `Batches::Finalize`: append an open batch only when `0 < size < batch_size`. -/
def Batches.finalize (bs : Batches) : Batches :=
  let bs1 :=
    if bs.vertices_batch.queries.length > 0 &&
        bs.vertices_batch.queries.length < bs.batch_size then
      { bs with vertex_batches := bs.vertex_batches ++ [bs.vertices_batch] }
    else bs
  if bs1.edges_batch.queries.length > 0 &&
      bs1.edges_batch.queries.length < bs1.batch_size then
    { bs1 with edge_batches := bs1.edge_batches ++ [bs1.edges_batch] }
  else bs1

/-- `Batches::Empty`: `vertex_batches.empty() && edge_batches.empty()`. -/
def Batches.empty (bs : Batches) : Bool :=
  bs.vertex_batches.isEmpty && bs.edge_batches.isEmpty

/-- `FetchBatches` from `batch_import.cpp`, with the statement stream given as a
list: stop when `query_number + 1 >= batch_size * max_batches` or the stream
ends; skip statements with empty text without counting them; feed the rest to
`AddQuery`; `Finalize` at the end.  Returns the grouped window and the
unconsumed remainder of the stream. -/
def fetchWindowGo (batch_size max_batches : Nat) :
    Nat → Batches → List Query → Batches × List Query
  | _, bs, [] => (bs, [])
  | query_number, bs, q :: rest =>
    if query_number + 1 ≥ batch_size * max_batches then (bs, q :: rest)
    else if q.query.isEmpty then fetchWindowGo batch_size max_batches query_number bs rest
    else fetchWindowGo batch_size max_batches (query_number + 1) (bs.addQuery q) rest

/-- `FetchBatches`: build a window from the stream, then `Finalize`. -/
def fetchWindow (batch_size max_batches : Nat) (input : List Query) :
    Batches × List Query :=
  let (bs, rest) := fetchWindowGo batch_size max_batches 0 (mkBatches batch_size) input
  (bs.finalize, rest)

/-- Number of statements a window executes when every attempt succeeds:
`ExecuteSerial(pre_queries)` runs each pre statement, `ExecuteBatchesParallel`
runs every statement of every sealed vertex/edge batch, and
`ExecuteSerial(post_queries)` runs each post statement.  Statements left in an
unsealed open batch are not passed to any executor. -/
def windowExecutedCount (bs : Batches) : Nat :=
  bs.pre_queries.length +
    (bs.vertex_batches.map (fun b => b.queries.length)).sum +
    (bs.edge_batches.map (fun b => b.queries.length)).sum +
    bs.post_queries.length

/-- `mode::batch_import::Run`, success path, counting executed statements:
fetch a window; if `batches.Empty()` break (discarding the window's pre and
post statements); otherwise execute the window and loop.  `fuel` bounds the
number of windows. -/
def runImport (fuel batch_size max_batches : Nat) (input : List Query) : Nat :=
  match fuel with
  | 0 => 0
  | fuel + 1 =>
    let (bs, rest) := fetchWindow batch_size max_batches input
    if bs.empty then 0
    else windowExecutedCount bs + runImport fuel batch_size max_batches rest

/-- Number of non-empty statements in the stream — what the tokenizer hands to
the importer (`FetchBatches` skips exactly the empty ones). -/
def countNonEmpty (input : List Query) : Nat :=
  (input.filter (fun q => !q.query.isEmpty)).length

/-- The failure branch of the worker task in `ExecuteBatchesParallel`
(`batch_import.cpp`): `backoff *= 2; if (backoff > 100) backoff = 1;
attempts += 1`. -/
def batchOnFailure (b : Batch) : Batch :=
  let bo := b.backoff * 2
  let bo := if bo > 100 then 1 else bo
  { b with backoff := bo, attempts := b.attempts + 1 }

/-- Modelled from the spec: the backoff update as the spec words it —
`backoff_ms := min(backoff_ms × 2, 100)`; if after doubling `backoff_ms > 100`,
reset `backoff_ms := 1`.  Used only to compare against `batchOnFailure`. -/
def specBackoffNext (x : Int) : Int :=
  let clamped := min (x * 2) 100
  if x * 2 > 100 then 1 else clamped

/-- The single-quote character (written by code point to keep quote characters
out of the literals). -/
def squoteChar : Char := Char.ofNat 39

/-- The double-quote character. -/
def dquoteChar : Char := Char.ofNat 34

/-- The backslash character. -/
def bslashChar : Char := Char.ofNat 92

/-- The newline character. -/
def nlChar : Char := Char.ofNat 10

/-- `isspace` as used by `utils::Trim`: space, `\t`, `\n`, `\v`, `\f`, `\r`. -/
def isSpaceChar (c : Char) : Bool :=
  c == ' ' || c == Char.ofNat 9 || c == Char.ofNat 10 || c == Char.ofNat 11 ||
    c == Char.ofNat 12 || c == Char.ofNat 13

/-- `utils::Trim`: strip `isspace` characters from both ends. -/
def trimChars (l : List Char) : List Char :=
  ((l.dropWhile isSpaceChar).reverse.dropWhile isSpaceChar).reverse

/-- Result of one iteration of the character loop of `console::ParseLine`
(`utils.cpp`): whether the loop `break`s at an unquoted `;`, and the quote and
escape state afterwards.  In every non-done branch the character is appended to
the parsed line. -/
structure StepRes where
  done : Bool
  quote : Option Char
  escaped : Bool
deriving DecidableEq, Repr

/-- One iteration of the loop body of `console::ParseLine`:
if inside a quote and the byte is a backslash, toggle `escaped` and append;
else if (outside a quote and the byte is a quote character) or (not escaped and
the byte equals the current quote), toggle the quote; else if outside a quote
and the byte is `;`, break with `is_done = true`; else append.  Every branch
except the backslash one clears `escaped`. -/
def parseStep (q : Option Char) (e : Bool) (c : Char) : StepRes :=
  if q.isSome ∧ c = bslashChar then ⟨false, q, !e⟩
  else if (q.isNone ∧ (c = dquoteChar ∨ c = squoteChar)) ∨ (e = false ∧ q = some c) then
    ⟨false, if q.isSome then none else some c, false⟩
  else if q.isNone ∧ c = ';' then ⟨true, q, e⟩
  else ⟨false, q, false⟩

/-- Result of `console::ParseLine` over a whole line: the parsed text (without
the terminating `;`), `is_done`, and the final quote/escape state. -/
structure ParseRes where
  parsed : List Char
  done : Bool
  quote : Option Char
  escaped : Bool
deriving DecidableEq, Repr

/-- `console::ParseLine`: run `parseStep` over the line, stopping at the first
step that reports `done` (the `break` in the source). -/
def parseLineRun (q : Option Char) (e : Bool) : List Char → ParseRes
  | [] => ⟨[], false, q, e⟩
  | c :: cs =>
    let r := parseStep q e c
    if r.done then ⟨[], true, r.quote, r.escaped⟩
    else
      let rest := parseLineRun r.quote r.escaped cs
      ⟨c :: rest.parsed, rest.done, rest.quote, rest.escaped⟩

/-- Tokenizer state across `query::GetQuery` calls: the global `default_text`
and the lines still unread on standard input (each line assumed
newline-terminated, so `GetLine` returns it before reporting end of input). -/
structure TokSt where
  default_text : List Char
  lines : List (List Char)
deriving DecidableEq, Repr

/-- The line loop of `query::GetQuery` (non-tty path, `utils.cpp`): `GetLine`
prepends the pending `default_text` to the next stdin line and clears it; an
empty combined line is skipped; otherwise the line is fed to `ParseLine`
continuing the quote/escape state carried from the start of the call.  On
`is_done` the text past the `;` is trimmed into `default_text`; otherwise a
newline is appended to the accumulated query and the loop continues.  End of
input makes the call return nothing, discarding the accumulated text. -/
def getQueryLoop (acc : List Char) (q : Option Char) (e : Bool) (dt : List Char) :
    List (List Char) → Option (List Char × TokSt)
  | [] => none
  | l :: rest =>
    let line := dt ++ l
    if line.isEmpty then getQueryLoop acc q e [] rest
    else
      let r := parseLineRun q e line
      let acc1 := acc ++ r.parsed
      if r.done then
        let cc := r.parsed.length + 1
        some (acc1, ⟨if cc < line.length then trimChars (line.drop cc) else [], rest⟩)
      else
        let cc := r.parsed.length
        let dt2 := if cc < line.length then trimChars (line.drop cc) else []
        getQueryLoop (acc1 ++ [nlChar]) r.quote r.escaped dt2 rest

/-- `query::GetQuery` (`utils.cpp`, non-tty path): first parse the pending
`default_text` with a fresh quote/escape state; if a `;` is found there, return
that prefix and trim the remainder back into `default_text`.  Otherwise enter
the line loop — note that the parsed prefix is discarded while the quote and
escape state mutated by this first `ParseLine` is kept, and `GetLine` prepends
the same `default_text` again. -/
def getQueryM (st : TokSt) : Option (List Char × TokSt) :=
  let r0 := parseLineRun none false st.default_text
  if r0.done then
    some (r0.parsed, ⟨trimChars (st.default_text.drop (r0.parsed.length + 1)), st.lines⟩)
  else
    getQueryLoop [] r0.quote r0.escaped st.default_text st.lines

/-- The importer's statement loop (`FetchBatches`): call `GetQuery` until it
returns nothing, skipping empty statements; collect the statements that get
executed. -/
def collectStatements (fuel : Nat) (st : TokSt) : List (List Char) :=
  match fuel with
  | 0 => []
  | fuel + 1 =>
    match getQueryM st with
    | none => []
    | some (s, st') =>
      if s.isEmpty then collectStatements fuel st'
      else s :: collectStatements fuel st'

/-- Modelled from the spec (§4.1): the reference tokenizer — a single global
scan of the input stream that yields the accumulated buffer at each byte
reached with no quote open, and discards a trailing buffer at end of input.
Used only as the meaning of "the `;`-terminated statements in the input". -/
def specStatementsGo (q : Option Char) (e : Bool) (buf : List Char) :
    List Char → List (List Char)
  | [] => []
  | c :: cs =>
    let r := parseStep q e c
    if r.done then buf :: specStatementsGo none false [] cs
    else specStatementsGo r.quote r.escaped (buf ++ [c]) cs

/-- Modelled from the spec (§4.1, §6): the reference statement list, with empty
and whitespace-only statements skipped. -/
def specStatements (input : List Char) : List (List Char) :=
  (specStatementsGo none false [] input).filter (fun s => !(trimChars s).isEmpty)

/-- The observable part of `std::vector<mg_memory::MgSessionPtr> sessions`:
its element count and its reserved capacity.  `reserve` changes only the
capacity; assignment through `operator[]` changes neither. -/
structure SessionsVec where
  size : Nat
  capacity : Nat
deriving DecidableEq, Repr

/-- `std::vector::reserve`: capacity grows to at least `n`, size unchanged. -/
def SessionsVec.reserve (v : SessionsVec) (n : Nat) : SessionsVec :=
  ⟨v.size, max v.capacity n⟩

/-- The `sessions` vector after the `BatchExecutionContext` constructor
(`batch_import.cpp`): default-constructed (empty), then
`sessions.reserve(max_concurrent_executions)`; the subsequent
`sessions[thread_i] = ...` stores never change the size. -/
def sessionsAfterInit (w : Nat) : SessionsVec :=
  (SessionsVec.mk 0 0).reserve w

/-- The indices used by the constructor loop
`for (thread_i = 0; thread_i < max_concurrent_executions; ++thread_i)
  sessions[thread_i] = ...`.  The same indices (`thread_i < used_threads ≤ w`)
are used later by the worker tasks of `ExecuteBatchesParallel` and by the
bad-session replacement. -/
def sessionAccessIndices (w : Nat) : List Nat :=
  List.range w

/-- `query::line::ClauseState` (`query_type.hpp`): the states of the keyword
recognizer. -/
inductive ClauseState where
  | NONE
  | C | CR | CRE | CREA | CREAT | CREATE | CREATE_ | CREATE_P
  | CREATE_I | CREATE_IN | CREATE_IND | CREATE_INDE | CREATE_INDEX
  | M | MA | MAT | MATC | MATCH | MATCH_ | MATCH_P
  | ME | MER | MERG | MERGE | MERGE_ | MERGE_P
  | D | DE | DET | DETA | DETAC | DETACH | DETACH_ | DETACH_D | DETACH_DE
  | DETACH_DEL | DETACH_DELE | DETACH_DELET | DETACH_DELETE
  | DR | DRO | DROP | DROP_ | DROP_I | DROP_IN | DROP_IND | DROP_INDE | DROP_INDEX
  | P | P_ | P_R | P_RE | P_REM | P_REMO | P_REMOV | P_REMOVE
deriving DecidableEq, Repr

/-- `query::line::IsWhitespace`: space, tab or newline. -/
def isWhitespaceChar (c : Char) : Bool :=
  c == ' ' || c == Char.ofNat 9 || c == Char.ofNat 10

/-- `query::line::NextState` (`query_type.hpp`), translated branch by branch.
`inQuote` stands for `*quote` being non-zero.  Note the source's letter tests
in the `DETACH DELETE` chain: at `DETACH_DE` it advances on `'L'` or `'e'`
(not `'l'`), and at `DETACH_DELE` on `'T'` or `'e'` (not `'t'`). -/
def nextState (inQuote : Bool) (c : Char) (s : ClauseState) : ClauseState :=
  if !inQuote && isWhitespaceChar c then
    match s with
    | .CREATE => .CREATE_
    | .MATCH => .MATCH_
    | .MERGE => .MERGE_
    | .DETACH => .DETACH_
    | .DROP => .DROP_
    | .P => .P_
    | _ => s
  else if !inQuote && (c == 'C' || c == 'c') && s == .NONE then .C
  else if !inQuote && (c == 'R' || c == 'r') && s == .C then .CR
  else if !inQuote && (c == 'E' || c == 'e') && s == .CR then .CRE
  else if !inQuote && (c == 'A' || c == 'a') && s == .CRE then .CREA
  else if !inQuote && (c == 'T' || c == 't') && s == .CREA then .CREAT
  else if !inQuote && (c == 'E' || c == 'e') && s == .CREAT then .CREATE
  else if !inQuote && c == '(' && (s == .CREATE || s == .CREATE_) then .CREATE_P
  else if !inQuote && (c == 'I' || c == 'i') && s == .CREATE_ then .CREATE_I
  else if !inQuote && (c == 'N' || c == 'n') && s == .CREATE_I then .CREATE_IN
  else if !inQuote && (c == 'D' || c == 'd') && s == .CREATE_IN then .CREATE_IND
  else if !inQuote && (c == 'E' || c == 'e') && s == .CREATE_IND then .CREATE_INDE
  else if !inQuote && (c == 'X' || c == 'x') && s == .CREATE_INDE then .CREATE_INDEX
  else if !inQuote && (c == 'M' || c == 'm') && s == .NONE then .M
  else if !inQuote && (c == 'A' || c == 'a') && s == .M then .MA
  else if !inQuote && (c == 'T' || c == 't') && s == .MA then .MAT
  else if !inQuote && (c == 'C' || c == 'c') && s == .MAT then .MATC
  else if !inQuote && (c == 'H' || c == 'h') && s == .MATC then .MATCH
  else if !inQuote && c == '(' && (s == .MATCH || s == .MATCH_) then .MATCH_P
  else if !inQuote && (c == 'E' || c == 'e') && s == .M then .ME
  else if !inQuote && (c == 'R' || c == 'r') && s == .ME then .MER
  else if !inQuote && (c == 'G' || c == 'g') && s == .MER then .MERG
  else if !inQuote && (c == 'E' || c == 'e') && s == .MERG then .MERGE
  else if !inQuote && c == '(' && (s == .MERGE || s == .MERGE_) then .MERGE_P
  else if !inQuote && (c == 'D' || c == 'd') && s == .NONE then .D
  else if !inQuote && (c == 'E' || c == 'e') && s == .D then .DE
  else if !inQuote && (c == 'T' || c == 't') && s == .DE then .DET
  else if !inQuote && (c == 'A' || c == 'a') && s == .DET then .DETA
  else if !inQuote && (c == 'C' || c == 'c') && s == .DETA then .DETAC
  else if !inQuote && (c == 'H' || c == 'h') && s == .DETAC then .DETACH
  else if !inQuote && (c == 'D' || c == 'd') && s == .DETACH_ then .DETACH_D
  else if !inQuote && (c == 'E' || c == 'e') && s == .DETACH_D then .DETACH_DE
  else if !inQuote && (c == 'L' || c == 'e') && s == .DETACH_DE then .DETACH_DEL
  else if !inQuote && (c == 'E' || c == 'e') && s == .DETACH_DEL then .DETACH_DELE
  else if !inQuote && (c == 'T' || c == 'e') && s == .DETACH_DELE then .DETACH_DELET
  else if !inQuote && (c == 'E' || c == 'e') && s == .DETACH_DELET then .DETACH_DELETE
  else if !inQuote && (c == 'R' || c == 'r') && s == .D then .DR
  else if !inQuote && (c == 'O' || c == 'o') && s == .DR then .DRO
  else if !inQuote && (c == 'P' || c == 'p') && s == .DRO then .DROP
  else if !inQuote && (c == 'I' || c == 'i') && s == .DROP_ then .DROP_I
  else if !inQuote && (c == 'N' || c == 'n') && s == .DROP_I then .DROP_IN
  else if !inQuote && (c == 'D' || c == 'd') && s == .DROP_IN then .DROP_IND
  else if !inQuote && (c == 'E' || c == 'e') && s == .DROP_IND then .DROP_INDE
  else if !inQuote && (c == 'X' || c == 'x') && s == .DROP_INDE then .DROP_INDEX
  else if !inQuote && c == ')' && s == .NONE then .P
  else if !inQuote && (c == 'R' || c == 'r') && s == .P_ then .P_R
  else if !inQuote && (c == 'E' || c == 'e') && s == .P_R then .P_RE
  else if !inQuote && (c == 'M' || c == 'm') && s == .P_RE then .P_REM
  else if !inQuote && (c == 'O' || c == 'o') && s == .P_REM then .P_REMO
  else if !inQuote && (c == 'V' || c == 'v') && s == .P_REMO then .P_REMOV
  else if !inQuote && (c == 'E' || c == 'e') && s == .P_REMOV then .P_REMOVE
  else .NONE

/-- Run the recognizer over unquoted statement text starting from the initial
state, as the tokenizer does byte by byte. -/
def runClauses (text : List Char) : ClauseState :=
  text.foldl (fun s c => nextState false c s) .NONE

/-- Whether the recognizer, scanning the text byte by byte from the initial
state, ever reaches `target`; reaching a terminal state such as
`DETACH_DELETE` is what sets the corresponding feature flag. -/
def scanReaches (target : ClauseState) (text : List Char) : Bool :=
  (text.foldl
    (fun (p : ClauseState × Bool) c =>
      let s2 := nextState false c p.1
      (s2, p.2 || s2 == target))
    (ClauseState.NONE, false)).2

/-- The position of a bucket in the execution order of `mode::batch_import::Run`:
pre, then vertex, then edge, then post. -/
def Bucket.rank : Bucket → Nat
  | .pre => 0
  | .vertex => 1
  | .edge => 2
  | .post => 3

/-- An observable completion event of the import run: a statement of a serial
bucket finishing, or a worker finishing an attempt on a batch; `idx` is the
position in the bucket (the `batch_i` carried by the ReadinessToken for
parallel buckets). -/
structure Ev where
  phase : Bucket
  idx : Nat
deriving DecidableEq, Repr

/-- `ExecuteSerial` (`batch_import.cpp`): the statements of a serial bucket
complete one by one, in vector order, on `sessions[0]`. -/
def serialEvs (p : Bucket) (n : Nat) : List Ev :=
  (List.range n).map (fun i => ⟨p, i⟩)

/-- Number of batches with `is_executed` set — the value of the
`executed_batches` atomic counter, which is incremented exactly once per batch
whose attempt succeeds. -/
def countExecuted (bs : List Batch) : Nat :=
  (bs.filter (fun b => b.is_executed)).length

/-- The dispatch scan of `ExecuteBatchesParallel`: walk `batch_i` upward from
0, skip executed batches, stop once `max_concurrent_executions` workers are
used — i.e. the first `w` unexecuted indices in index order. -/
def dispatchScan (w : Nat) (bs : List Batch) : List Nat :=
  ((bs.enum.filter (fun pb => !pb.2.is_executed)).map (fun pb => pb.1)).take w

/-- Replace the batch at position `i`. -/
def updateAt : List Batch → Nat → (Batch → Batch) → List Batch
  | [], _, _ => []
  | b :: bs, 0, f => f b :: bs
  | b :: bs, n + 1, f => b :: updateAt bs n f

/-- One worker attempt on batch `i` in round `r`: on success (the `oracle`
decides the database outcome) set `is_executed`; on failure apply the backoff
update.  This is the body of the task given to the thread pool. -/
def applyAttempt (oracle : Nat → Nat → Bool) (r : Nat) (bs : List Batch) (i : Nat) :
    List Batch :=
  updateAt bs i (fun b => if oracle r i then { b with is_executed := true } else batchOnFailure b)

/-- One pass of the while-loop of `ExecuteBatchesParallel`: dispatch the first
`w` unexecuted batches, then await exactly one ReadinessToken per dispatched
batch.  The completion order within the pass is unconstrained; `sch` picks it.
Events are emitted in completion order. -/
def roundExec (p : Bucket) (w : Nat) (oracle : Nat → Nat → Bool)
    (sch : Nat → List Nat → List Nat) (r : Nat) (bs : List Batch) :
    List Ev × List Batch :=
  let order := sch r (dispatchScan w bs)
  (order.map (fun i => ⟨p, i⟩), order.foldl (applyAttempt oracle r) bs)

/-- `ExecuteBatchesParallel`: repeat passes until `executed_batches >= size`
(also the immediate-return case of an empty vector); `fuel` bounds the number
of passes, `none` meaning the loop has not terminated within the bound.
Returns the completion-event trace and the final batch states. -/
def ebp (p : Bucket) (w : Nat) (oracle : Nat → Nat → Bool)
    (sch : Nat → List Nat → List Nat) :
    Nat → Nat → List Batch → Option (List Ev × List Batch)
  | 0, _, _ => none
  | fuel + 1, r, bs =>
    if countExecuted bs ≥ bs.length then some ([], bs)
    else
      match ebp p w oracle sch fuel (r + 1) (roundExec p w oracle sch r bs).2 with
      | none => none
      | some (evs2, bsf) => some ((roundExec p w oracle sch r bs).1 ++ evs2, bsf)

/-- The window body of `mode::batch_import::Run`:
`ExecuteSerial(pre_queries)`, then `ExecuteBatchesParallel(vertex_batches)`,
then `ExecuteBatchesParallel(edge_batches)`, then
`ExecuteSerial(post_queries)` — each call returns before the next starts, so
the run trace is the concatenation of the four phase traces. -/
def runWindowTrace (w : Nat) (oracle : Nat → Nat → Bool)
    (schV schE : Nat → List Nat → List Nat) (fV fE : Nat)
    (preN : Nat) (vbs ebs : List Batch) (postN : Nat) : Option (List Ev) :=
  match ebp .vertex w oracle schV fV 0 vbs with
  | none => none
  | some (evsV, _) =>
    match ebp .edge w oracle schE fE 0 ebs with
    | none => none
    | some (evsE, _) =>
      some (serialEvs .pre preN ++ evsV ++ evsE ++ serialEvs .post postN)

/-- A pure vertex-create statement as classified by the recognizer
(`CREATE (` sets `has_create` only). -/
def vertexQueryEx : Query :=
  { query := "CREATE (:A)".toList, info := { has_create := true } }

/-- A detach-delete statement: `has_match` and `has_detach_delete` set, so it
is routed to the post bucket. -/
def postQueryEx : Query :=
  { query := "MATCH (n) DETACH DELETE n".toList,
    info := { has_match := true, has_detach_delete := true } }

/-- First stdin line of the C9 failing input: `a;` followed by a single-quoted
region `'y;z` whose quote is still open at the end of the line. -/
def line1Ex : List Char := ['a', ';', squoteChar, 'y', ';', 'z']

/-- Second stdin line of the C9 failing input: `w;`. -/
def line2Ex : List Char := ['w', ';']

/-- The trace produced by `runWindowTrace` on a window with one pre statement,
two vertex batches, one edge batch and one post statement when every attempt
succeeds. -/
def c3TraceEx : List Ev :=
  [⟨.pre, 0⟩, ⟨.vertex, 0⟩, ⟨.vertex, 1⟩, ⟨.edge, 0⟩, ⟨.post, 0⟩]

/-- C1: the claim says every non-empty statement emitted by the tokenizer is
executed, in particular pre/post statements of a window with no vertex and no
edge batch.  The code refutes it: on an input consisting of one post-bucket
statement, `Run` fetches a window whose `vertex_batches` and `edge_batches`
are both empty, `Batches::Empty()` is therefore true, and the loop breaks
before `ExecuteSerial` runs the pre/post buckets — 0 of the 1 emitted
statements execute. -/
theorem c1_post_only_window_dropped :
    routeQuery postQueryEx.info = Bucket.post ∧
    countNonEmpty [postQueryEx] = 1 ∧
    (fetchWindow 1000 20 [postQueryEx]).1.post_queries.length = 1 ∧
    (fetchWindow 1000 20 [postQueryEx]).1.empty = true ∧
    runImport 2 1000 20 [postQueryEx] = 0 :=
  ⟨rfl, rfl, rfl, rfl, rfl⟩

/-- C2: the claim says an open batch holding exactly `batch_size` statements is
sealed at input end.  The code refutes it: with `batch_size = 2` and two
vertex statements, `Batches::Finalize` (guard `0 < size < batch_size`) seals
nothing, the two statements stay in the open `vertices_batch`, and the run
executes 0 statements. -/
theorem c2_full_open_batch_dropped :
    (((mkBatches 2).addQuery vertexQueryEx).addQuery vertexQueryEx).finalize.vertex_batches = [] ∧
    (((mkBatches 2).addQuery vertexQueryEx).addQuery
        vertexQueryEx).finalize.vertices_batch.queries.length = 2 ∧
    runImport 3 2 20 [vertexQueryEx, vertexQueryEx] = 0 :=
  ⟨rfl, rfl, rfl⟩

/-- C4 counterexample: a statement whose only set flag is `has_drop_index` is
routed to the post bucket, not the pre bucket, because `is_pre_query` tests
only `has_create_index`. -/
theorem c4_drop_index_routed_post :
    routeQuery { has_drop_index := true } = Bucket.post ∧
    (routeQuery { has_drop_index := true } == Bucket.pre) = false ∧
    routeQuery { has_storage_mode := true } = Bucket.post :=
  ⟨rfl, rfl, rfl⟩

/-- C4 (amended): the grouper places a statement in the pre bucket exactly when
its `has_create_index` flag is set; `has_drop_index` and `has_storage_mode` do
not route to pre (such statements fall through to the vertex/edge/post rules). -/
theorem c4_pre_iff_create_index (info : QueryInfo) :
    routeQuery info = Bucket.pre ↔ info.has_create_index = true := by
  unfold routeQuery isPreQuery
  cases hci : info.has_create_index with
  | true => simp
  | false => simp ; split_ifs <;> simp

/-- C8: the claim says keyword recognition is case-insensitive, in particular
for a lowercase `detach delete`.  The code refutes it: the recognizer reaches
`DETACH_DELETE` on the uppercase token sequence but never on the lowercase
one, because at state `DETACH_DE` it advances only on `'L'` or `'e'` and at
`DETACH_DELE` only on `'T'` or `'e'` (lowercase `'l'`/`'t'` reset it to
`NONE`), so `has_detach_delete` is never set for lowercase input. -/
theorem c8_lowercase_detach_delete_unrecognized :
    scanReaches ClauseState.DETACH_DELETE ("DETACH DELETE".toList) = true ∧
    scanReaches ClauseState.DETACH_DELETE ("detach delete".toList) = false ∧
    runClauses ("detach delete".toList) = ClauseState.NONE ∧
    nextState false 'l' ClauseState.DETACH_DE = ClauseState.NONE ∧
    nextState false 'L' ClauseState.DETACH_DE = ClauseState.DETACH_DEL :=
  ⟨rfl, rfl, rfl, rfl, rfl⟩

/-- C9: the claim says a trailing unterminated statement is discarded and the
executed-statement count equals the number of `;`-terminated statements.  The
code refutes it: on the two stdin lines `a;'y;z` and `w;`, `GetQuery` parses
the leftover `default_text` `'y;z` once (moving the quote state inside the
quote), then `GetLine` prepends the same text and it is re-parsed with that
stale state, so the quoted `;` now terminates a statement; the model executes
the three statements `a`, `'y`, `zw`, while the reference scan of the input
finds exactly one `;`-terminated statement (`a`) plus an unterminated quoted
trailer. -/
theorem c9_statement_count_mismatch :
    collectStatements 9 ⟨[], [line1Ex, line2Ex]⟩ =
      [['a'], [squoteChar, 'y'], ['z', 'w']] ∧
    specStatements (line1Ex ++ [nlChar] ++ line2Ex) = [['a']] ∧
    (collectStatements 9 ⟨[], [line1Ex, line2Ex]⟩).length = 3 ∧
    (specStatements (line1Ex ++ [nlChar] ++ line2Ex)).length = 1 :=
  ⟨rfl, rfl, rfl, rfl⟩

/-- C10: the claim says every `sessions[thread_i]` access is within the
vector's size.  The code refutes it: the constructor only calls
`sessions.reserve(max_concurrent_executions)` — which raises capacity but
leaves the size at 0 — and then writes `sessions[0] .. sessions[w-1]` through
`operator[]`, so every access (construction, worker execution, bad-session
replacement) indexes at or beyond the size. -/
theorem c10_sessions_access_out_of_bounds :
    sessionsAfterInit 8 = ⟨0, 8⟩ ∧
    (sessionsAfterInit 8).size = 0 ∧
    (sessionAccessIndices 8).length = 8 ∧
    (sessionAccessIndices 8).all
      (fun i => !(decide (i < (sessionsAfterInit 8).size))) = true :=
  ⟨rfl, rfl, rfl, rfl⟩

/-- Helper: one failure update keeps the backoff within `[1, 100]`. -/
theorem backoff_step_bounds (b : Batch) (h1 : 1 ≤ b.backoff) (h2 : b.backoff ≤ 100) :
    1 ≤ (batchOnFailure b).backoff ∧ (batchOnFailure b).backoff ≤ 100 := by
  unfold batchOnFailure
  by_cases h : b.backoff * 2 > 100
  · simp [h]
  · constructor <;> simp [h] <;> omega

/-- C5: on every failed attempt the worker performs exactly the update
`attempts += 1`, `backoff := min(backoff×2, 100)` with the doubled value
recycled to 1 once it exceeds 100 — i.e. `batchOnFailure` agrees with the
spec's formula `specBackoffNext` — and consequently after `k` consecutive
failures the backoff is the `k`-th iterate of that rule and `attempts` has
grown by `k`. -/
theorem c5_backoff_failure_update :
    (∀ b : Batch, (batchOnFailure b).backoff = specBackoffNext b.backoff ∧
      (batchOnFailure b).attempts = b.attempts + 1) ∧
    (∀ (b : Batch) (k : Nat),
      (batchOnFailure^[k] b).backoff = specBackoffNext^[k] b.backoff ∧
      (batchOnFailure^[k] b).attempts = b.attempts + k) := by
  have hstep : ∀ b : Batch, (batchOnFailure b).backoff = specBackoffNext b.backoff ∧
      (batchOnFailure b).attempts = b.attempts + 1 := by
    intro b
    unfold batchOnFailure specBackoffNext
    refine ⟨?_, by simp⟩
    by_cases h : b.backoff * 2 > 100
    · simp [h]
    · have : min (b.backoff * 2) 100 = b.backoff * 2 := min_eq_left (by omega)
      simp [h, this]
  refine ⟨hstep, ?_⟩
  intro b k
  induction k with
  | zero => simp
  | succ k ih =>
    rw [Function.iterate_succ_apply', Function.iterate_succ_apply']
    rcases hstep (batchOnFailure^[k] b) with ⟨h1, h2⟩
    refine ⟨by rw [h1, ih.1], ?_⟩
    rw [h2, ih.2]
    omega

/-- C6: for a batch created by the `Batch` constructor (`backoff = 1`), after
any number of failure updates the backoff lies in `[1, 100]` — so the value a
worker reads when it starts on the batch, when it decides whether to sleep,
and right after a failure update is always within those bounds. -/
theorem c6_backoff_bounds (cap idx : Int) (k : Nat) :
    1 ≤ (batchOnFailure^[k] (mkBatch cap idx)).backoff ∧
    (batchOnFailure^[k] (mkBatch cap idx)).backoff ≤ 100 := by
  induction k with
  | zero => simp [mkBatch]
  | succ k ih =>
    rw [Function.iterate_succ_apply']
    exact backoff_step_bounds _ ih.1 ih.2

/-- C7: the tokenizer terminates a statement exactly at an unquoted `;`:
outside a quote the loop breaks precisely on `;`; inside a quote no byte (in
particular `;`) terminates; an unescaped quote character enters and leaves
quotation; a backslash inside quotation toggles the escape flag, and a quote
character preceded by an unescaped backslash does not close the quote; and on
a whole line the scan of `ab'c;d'e;f` stops at the second, unquoted `;`. -/
theorem c7_unquoted_semicolon_terminates :
    (∀ (e : Bool) (c : Char), (parseStep none e c).done = true ↔ c = ';') ∧
    (∀ (q : Char) (e : Bool) (c : Char), (parseStep (some q) e c).done = false) ∧
    (∀ e : Bool, parseStep none e squoteChar = ⟨false, some squoteChar, false⟩) ∧
    (∀ e : Bool, parseStep none e dquoteChar = ⟨false, some dquoteChar, false⟩) ∧
    (parseStep (some squoteChar) false squoteChar = ⟨false, none, false⟩) ∧
    (parseStep (some dquoteChar) false dquoteChar = ⟨false, none, false⟩) ∧
    (∀ e : Bool, parseStep (some squoteChar) e bslashChar =
      ⟨false, some squoteChar, !e⟩) ∧
    (parseStep (some squoteChar) true squoteChar = ⟨false, some squoteChar, false⟩) ∧
    (parseStep (some dquoteChar) true dquoteChar = ⟨false, some dquoteChar, false⟩) ∧
    (parseLineRun none false
        ['a', 'b', squoteChar, 'c', ';', 'd', squoteChar, 'e', ';', 'f'] =
      ⟨['a', 'b', squoteChar, 'c', ';', 'd', squoteChar, 'e'], true, none, false⟩) := by
  refine ⟨?_, ?_, ?_, ?_, by decide, by decide, ?_, by decide, by decide, by decide⟩
  · intro e c
    unfold parseStep
    split_ifs with h1 h2 h3
    · simp at h1
    · have hc : c = dquoteChar ∨ c = squoteChar := by
        rcases h2 with ⟨-, h⟩ | ⟨-, h⟩
        · exact h
        · exact absurd h (by simp)
      rcases hc with h | h <;> subst h <;> simp <;> decide
    · simp [h3.2]
    · simp only [Option.isNone_none, true_and] at h3
      simp [h3]
  · intro q e c
    unfold parseStep
    split_ifs <;> first | rfl | simp_all
  · intro e
    cases e <;> decide
  · intro e
    cases e <;> decide
  · intro e
    cases e <;> decide

/-- Helper: a list whose filtered sublist is at least as long satisfies the
predicate everywhere. -/
theorem length_le_filter_all {α : Type} (p : α → Bool) (l : List α)
    (h : l.length ≤ (l.filter p).length) : ∀ a ∈ l, p a = true := by
  induction l with
  | nil => simp
  | cons a l ih =>
    cases hp : p a with
    | true =>
      intro b hb
      rcases List.mem_cons.mp hb with rfl | hb
      · exact hp
      · refine ih ?_ b hb
        have hf : (List.filter p (a :: l)).length = (List.filter p l).length + 1 := by
          simp [List.filter_cons, hp]
        simp only [List.length_cons] at h
        omega
    | false =>
      exfalso
      have hle := List.length_filter_le p l
      have hf : List.filter p (a :: l) = List.filter p l := by
        simp [List.filter_cons, hp]
      rw [hf] at h
      simp only [List.length_cons] at h
      omega

/-- Helper: every completion event of a pass belongs to the bucket being
executed. -/
theorem roundExec_phase (p : Bucket) (w : Nat) (oracle : Nat → Nat → Bool)
    (sch : Nat → List Nat → List Nat) (r : Nat) (bs : List Batch) :
    ∀ ev ∈ (roundExec p w oracle sch r bs).1, ev.phase = p := by
  intro ev hev
  unfold roundExec at hev
  simp only [List.mem_map] at hev
  obtain ⟨i, -, rfl⟩ := hev
  rfl

/-- Helper: when `ExecuteBatchesParallel` terminates within its fuel, every
event of its trace belongs to its bucket and every batch of its final state is
executed (the loop exits only once `executed_batches >= size`). -/
theorem ebp_some_spec (p : Bucket) (w : Nat) (oracle : Nat → Nat → Bool)
    (sch : Nat → List Nat → List Nat) :
    ∀ (fuel r : Nat) (bs : List Batch) (evs : List Ev) (bsf : List Batch),
      ebp p w oracle sch fuel r bs = some (evs, bsf) →
      (∀ ev ∈ evs, ev.phase = p) ∧ (∀ b ∈ bsf, b.is_executed = true) := by
  intro fuel
  induction fuel with
  | zero =>
    intro r bs evs bsf h
    simp [ebp] at h
  | succ fuel ih =>
    intro r bs evs bsf h
    simp only [ebp] at h
    by_cases hc : countExecuted bs ≥ bs.length
    · rw [if_pos hc] at h
      simp only [Option.some.injEq, Prod.mk.injEq] at h
      obtain ⟨h1, h2⟩ := h
      subst h1
      subst h2
      refine ⟨by simp, ?_⟩
      have hc2 : bs.length ≤ (bs.filter (fun b => b.is_executed)).length := by
        simpa [countExecuted] using hc
      intro b hb
      exact length_le_filter_all (fun b => b.is_executed) bs hc2 b hb
    · rw [if_neg hc] at h
      cases hrec : ebp p w oracle sch fuel (r + 1) (roundExec p w oracle sch r bs).2 with
      | none => rw [hrec] at h; simp at h
      | some pr =>
        obtain ⟨evs2, bsf2⟩ := pr
        rw [hrec] at h
        simp only [Option.some.injEq, Prod.mk.injEq] at h
        obtain ⟨h1, h2⟩ := h
        subst h1
        subst h2
        have ihspec := ih (r + 1) _ evs2 bsf2 hrec
        refine ⟨?_, ihspec.2⟩
        intro ev hev
        rcases List.mem_append.mp hev with hm | hm
        · exact roundExec_phase p w oracle sch r bs ev hm
        · exact ihspec.1 ev hm

/-- Helper: every serial event carries the serial bucket. -/
theorem serialEvs_phase (p : Bucket) (n : Nat) :
    ∀ ev ∈ serialEvs p n, ev.phase = p := by
  intro ev hev
  simp only [serialEvs, List.mem_map] at hev
  obtain ⟨i, -, rfl⟩ := hev
  rfl

/-- Helper: the indices of the serial events are `0, 1, ..., n-1` in order. -/
theorem serialEvs_map_idx (p : Bucket) (n : Nat) :
    (serialEvs p n).map Ev.idx = List.range n := by
  simp [serialEvs, List.map_map, Function.comp_def]

/-- Helper: a list of events all in one bucket is rank-sorted. -/
theorem pairwise_rank_const (l : List Ev) (p : Bucket) (h : ∀ ev ∈ l, ev.phase = p) :
    l.Pairwise (fun a b => a.phase.rank ≤ b.phase.rank) := by
  induction l with
  | nil => exact List.Pairwise.nil
  | cons a l ih =>
    refine List.Pairwise.cons ?_ (ih (fun ev hev => h ev (List.mem_cons_of_mem a hev)))
    intro b hb
    rw [h a (List.mem_cons_self a l), h b (List.mem_cons_of_mem a hb)]

/-- Helper: filtering a single-bucket event list for that bucket keeps it. -/
theorem filter_phase_self (l : List Ev) (p : Bucket) (h : ∀ ev ∈ l, ev.phase = p) :
    l.filter (fun ev => ev.phase == p) = l := by
  induction l with
  | nil => rfl
  | cons a l ih =>
    have ha := h a (List.mem_cons_self a l)
    simp [List.filter_cons, ha, ih (fun ev hev => h ev (List.mem_cons_of_mem a hev))]

/-- Helper: filtering a single-bucket event list for a different bucket
empties it. -/
theorem filter_phase_other (l : List Ev) (p q : Bucket) (hne : p ≠ q)
    (h : ∀ ev ∈ l, ev.phase = p) :
    l.filter (fun ev => ev.phase == q) = [] := by
  induction l with
  | nil => rfl
  | cons a l ih =>
    have ha := h a (List.mem_cons_self a l)
    simp [List.filter_cons, ha, hne,
      ih (fun ev hev => h ev (List.mem_cons_of_mem a hev))]

/-- Helper: the concatenation pre ++ vertex ++ edge ++ post is sorted by
bucket rank. -/
theorem pairwise_rank_four (A B C D : List Ev)
    (hA : ∀ ev ∈ A, ev.phase = Bucket.pre) (hB : ∀ ev ∈ B, ev.phase = Bucket.vertex)
    (hC : ∀ ev ∈ C, ev.phase = Bucket.edge) (hD : ∀ ev ∈ D, ev.phase = Bucket.post) :
    (A ++ B ++ C ++ D).Pairwise (fun a b => a.phase.rank ≤ b.phase.rank) := by
  have pA := pairwise_rank_const A _ hA
  have pB := pairwise_rank_const B _ hB
  have pC := pairwise_rank_const C _ hC
  have pD := pairwise_rank_const D _ hD
  have hAB : ∀ a ∈ A ++ B, a.phase.rank ≤ 1 := by
    intro a ha
    rcases List.mem_append.mp ha with h | h
    · rw [hA a h]; decide
    · rw [hB a h]; decide
  have hABC : ∀ a ∈ A ++ B ++ C, a.phase.rank ≤ 2 := by
    intro a ha
    rcases List.mem_append.mp ha with h | h
    · exact Nat.le_trans (hAB a h) (by decide)
    · rw [hC a h]; decide
  refine List.pairwise_append.mpr ⟨?_, pD, ?_⟩
  · refine List.pairwise_append.mpr ⟨?_, pC, ?_⟩
    · refine List.pairwise_append.mpr ⟨pA, pB, ?_⟩
      intro a ha b hb
      rw [hA a ha, hB b hb]
      decide
    · intro a ha b hb
      rw [hC b hb]
      exact Nat.le_trans (hAB a ha) (by decide)
  · intro a ha b hb
    rw [hD b hb]
    exact Nat.le_trans (hABC a ha) (by decide)

/-- C3: in each fetch window the bucket phases are strictly ordered.  For
every worker count, database outcome (`oracle`), completion order (`schV`,
`schE`) and fuel, if the window terminates then (a) the completion trace is
sorted by bucket rank — every pre event precedes every vertex event, every
vertex event precedes every edge event, and every edge event precedes every
post event; (b) the pre (resp. post) statements complete serially in arrival
order `0..preN-1` on one session; and (c) whenever the vertex
`ExecuteBatchesParallel` call returns — which happens before any edge batch is
dispatched — every vertex batch has `is_executed = true`. -/
theorem c3_window_phase_order
    (w : Nat) (oracle : Nat → Nat → Bool) (schV schE : Nat → List Nat → List Nat)
    (fV fE preN postN : Nat) (vbs ebs : List Batch) (tr : List Ev)
    (h : runWindowTrace w oracle schV schE fV fE preN vbs ebs postN = some tr) :
    tr.Pairwise (fun a b => a.phase.rank ≤ b.phase.rank) ∧
    (tr.filter (fun ev => ev.phase == Bucket.pre)).map Ev.idx = List.range preN ∧
    (tr.filter (fun ev => ev.phase == Bucket.post)).map Ev.idx = List.range postN ∧
    (∀ (evsV : List Ev) (bsV : List Batch),
      ebp Bucket.vertex w oracle schV fV 0 vbs = some (evsV, bsV) →
      ∀ b ∈ bsV, b.is_executed = true) := by
  unfold runWindowTrace at h
  cases hV : ebp Bucket.vertex w oracle schV fV 0 vbs with
  | none => rw [hV] at h; exact absurd h (by simp)
  | some pV =>
    obtain ⟨evsV, bsV⟩ := pV
    cases hE : ebp Bucket.edge w oracle schE fE 0 ebs with
    | none => rw [hV, hE] at h; exact absurd h (by simp)
    | some pE =>
      obtain ⟨evsE, bsE⟩ := pE
      rw [hV, hE] at h
      simp only [Option.some.injEq] at h
      subst h
      have hVspec := ebp_some_spec Bucket.vertex w oracle schV fV 0 vbs evsV bsV hV
      have hEspec := ebp_some_spec Bucket.edge w oracle schE fE 0 ebs evsE bsE hE
      have hpre := serialEvs_phase Bucket.pre preN
      have hpost := serialEvs_phase Bucket.post postN
      refine ⟨?_, ?_, ?_, ?_⟩
      · exact pairwise_rank_four _ _ _ _ hpre hVspec.1 hEspec.1 hpost
      · rw [List.filter_append, List.filter_append, List.filter_append]
        rw [filter_phase_self _ _ hpre,
          filter_phase_other _ _ _ (by decide) hVspec.1,
          filter_phase_other _ _ _ (by decide) hEspec.1,
          filter_phase_other _ _ _ (by decide) hpost]
        simp [serialEvs_map_idx]
      · rw [List.filter_append, List.filter_append, List.filter_append]
        rw [filter_phase_self _ _ hpost,
          filter_phase_other _ _ _ (by decide) hVspec.1,
          filter_phase_other _ _ _ (by decide) hEspec.1,
          filter_phase_other _ _ _ (by decide) hpre]
        simp [serialEvs_map_idx]
      · intro evsV2 bsV2 h2
        simp only [Option.some.injEq, Prod.mk.injEq] at h2
        obtain ⟨-, h2b⟩ := h2
        subst h2b
        exact hVspec.2

/-- C3 witness: a concrete window (one pre statement, two vertex batches, one
edge batch, one post statement, two workers, every attempt succeeding)
terminates with the trace `c3TraceEx`, and the theorem applies to it. -/
theorem c3_window_phase_order_witness :
    runWindowTrace 2 (fun _ _ => true) (fun _ l => l) (fun _ l => l) 3 3 1
        [mkBatch 1 0, mkBatch 1 1] [mkBatch 1 2] 1 = some c3TraceEx ∧
    c3TraceEx.Pairwise (fun a b => a.phase.rank ≤ b.phase.rank) :=
  ⟨rfl,
    (c3_window_phase_order 2 (fun _ _ => true) (fun _ l => l) (fun _ l => l) 3 3 1 1
      [mkBatch 1 0, mkBatch 1 1] [mkBatch 1 2] c3TraceEx rfl).1⟩
